import Mathlib

/-!
Verification of the panoptes content-addressed tiling core.

Shallow embedding of the repository's Python modules:
* `tileMaker.py`  : `fits_to_tiles` (grid tiling, per-tile normalization,
  hashing, manifest construction) and `find_duplicates` (hash-collision scan).
* `grayscaler.py` : `create_merkle_root` (pairwise hash rolling).
* `reconstruct.py`: `reconstruct_image_from_tiles` (canvas reassembly).

Modelling conventions:
* numpy 2-D arrays are modelled as an indexing function `Nat → Nat → Nat`
  together with explicit bounds; a raster input of unknown rank carries its
  `shape : List Nat` exactly as `image_data.shape` does.
* SHA-256 (`calculate_hash`, `hash_file_name`) is not modelled bit-for-bit;
  every definition is parametrised by an arbitrary hash function (`hf`).
  The claims settled here use only that hashing is a deterministic function
  of the hashed bytes.
* float64 arithmetic in the normalization `(tile - min) / (max - min) * 65535`
  is idealized as exact rational arithmetic; `astype(np.uint16)` truncates
  nonnegative values toward zero, i.e. takes the floor, which on the exact
  value is natural-number division.
* fallible code paths (early `return` after `logger.error`, uncaught Python
  exceptions) are modelled with `Except`/`Option`.
-/

namespace Panoptes

/-- Position block of a tile record, code keys
`x_start`, `y_start`, `x_end`, `y_end` (tileMaker.py lines 146-151). -/
structure Position where
  x_start : Nat
  y_start : Nat
  x_end : Nat
  y_end : Nat
  deriving Repr, DecidableEq

/-- One entry of `metadata["tiles"]` (tileMaker.py lines 142-152). -/
structure TileRecord where
  tile_id : String
  filename : String
  hash : String
  position : Position
  deriving Repr, DecidableEq

/-- The metadata dictionary built at tileMaker.py lines 102-106: keys
`fits_file`, `tile_size`, `tiles`. -/
structure Manifest where
  fits_file : String
  tile_size : Nat
  tiles : List TileRecord
  deriving Repr, DecidableEq

/-- `np.min` on a nonempty collection of samples (`[]` is out of the code's
domain; `np.min` raises there, the code never reaches it for `0 < T`). -/
def listMin : List Nat → Nat
  | [] => 0
  | [a] => a
  | a :: b :: r => min a (listMin (b :: r))

/-- `np.max` on a nonempty collection of samples. -/
def listMax : List Nat → Nat
  | [] => 0
  | [a] => a
  | a :: b :: r => max a (listMax (b :: r))

/-- `np.zeros((tile_size, tile_size), dtype=np.uint16)` (tileMaker.py
line 124). -/
def zeroTile (T : Nat) : List (List Nat) :=
  List.replicate T (List.replicate T 0)

/-- One sample of the non-degenerate normalization
`((tile - tile_min) / (tile_max - tile_min) * 65535).astype(np.uint16)`
(tileMaker.py line 126): exact arithmetic followed by truncation toward
zero is natural division. -/
def normalizeVal (lo hi v : Nat) : Nat :=
  (v - lo) * 65535 / (hi - lo)

/-- The normalization block of tileMaker.py lines 119-126: compute the
tile's min and max; a uniform tile (`tile_max == tile_min`) is replaced by
the all-zero tile, otherwise every sample is rescaled. -/
def normalizeTile (T : Nat) (block : List (List Nat)) : List (List Nat) :=
  let lo := listMin block.flatten
  let hi := listMax block.flatten
  if hi = lo then zeroTile T
  else block.map (List.map (normalizeVal lo hi))

/-- The tile extracted for grid cell `(i, j)`:
`image_data[i*T:(i+1)*T, j*T:(j+1)*T]` (tileMaker.py lines 116-117). -/
def tileBlock (pix : Nat → Nat → Nat) (T i j : Nat) : List (List Nat) :=
  (List.range T).map fun di => (List.range T).map fun dj =>
    pix (i * T + di) (j * T + dj)

/-- Whether the cell's tile is degenerate, exactly the test
`tile_max == tile_min` of tileMaker.py line 122. -/
def degenerateCell (pix : Nat → Nat → Nat) (T i j : Nat) : Prop :=
  listMax (tileBlock pix T i j).flatten = listMin (tileBlock pix T i j).flatten

instance (pix : Nat → Nat → Nat) (T i j : Nat) :
    Decidable (degenerateCell pix T i j) := by
  unfold degenerateCell; infer_instance

/-- The record appended for cell `(i, j)` (tileMaker.py lines 128-153):
`tile_id = f"{basename}_tile_{i}_{j}"`, filename `tile_id + ".png"`, hash of
the normalized tile, positions `x = j*T`, `y = i*T`. -/
def tileRecordOf (hf : List (List Nat) → String) (name : String)
    (pix : Nat → Nat → Nat) (T i j : Nat) : TileRecord :=
  { tile_id := name ++ "_tile_" ++ toString i ++ "_" ++ toString j
    filename := name ++ "_tile_" ++ toString i ++ "_" ++ toString j ++ ".png"
    hash := hf (normalizeTile T (tileBlock pix T i j))
    position :=
      { x_start := j * T
        y_start := i * T
        x_end := (j + 1) * T
        y_end := (i + 1) * T } }

/-- The nested tiling loops of tileMaker.py lines 113-153: `i` over rows,
`j` over columns, appending one record per cell in row-major order. -/
def splitTiles (hf : List (List Nat) → String) (name : String)
    (pix : Nat → Nat → Nat) (T rows cols : Nat) : List TileRecord :=
  (List.range rows).flatMap fun i =>
    (List.range cols).map fun j => tileRecordOf hf name pix T i j

/-- The warnings emitted by `logger.warning(f"Tile ({i}, {j}) has uniform
value")` (tileMaker.py line 123), one `(i, j)` per degenerate cell, in the
order the loops visit the cells. -/
def splitWarnings (pix : Nat → Nat → Nat) (T rows cols : Nat) :
    List (Nat × Nat) :=
  (List.range rows).flatMap fun i =>
    (List.range cols).filterMap fun j =>
      if degenerateCell pix T i j then some (i, j) else none

/-- `fits_to_tiles` (tileMaker.py lines 61-167), its pure content: the
2-D rank check of line 90 (`logger.error` + early return, modelled as
`Except.error "InputError"`), the grid `num_tiles_x = width // T`,
`num_tiles_y = height // T` of lines 98-99 (`T = 0` raises
`ZeroDivisionError` there), the uncaught `ZeroDivisionError` of line 157
(`avg_time_per_tile = elapsed_time / total_tiles`) which kills the run
after the loop but before the JSON dump of line 164 whenever
`total_tiles = num_tiles_x * num_tiles_y == 0` (raster smaller than the
tile size), and the manifest of lines 102-106 / 142-153 together with the
degenerate-tile warnings.  File I/O (tile PNGs, the JSON dump) is outside
the embedding; the manifest value is what gets persisted. -/
def fits_to_tiles (hf : List (List Nat) → String) (name : String)
    (shape : List Nat) (pix : Nat → Nat → Nat) (T : Nat) :
    Except String (Manifest × List (Nat × Nat)) :=
  match shape with
  | [height, width] =>
      if T = 0 then .error "ZeroDivisionError"
      else if (width / T) * (height / T) = 0 then .error "ZeroDivisionError"
      else
        .ok ({ fits_file := name
               tile_size := T
               tiles := splitTiles hf name pix T (height / T) (width / T) },
             splitWarnings pix T (height / T) (width / T))
  | _ => .error "InputError"

/-- One duplicate report tuple
`(tile_id, filename, first_tile_id, first_filename)`
(tileMaker.py line 193). -/
structure DupPair where
  tile_id : String
  filename : String
  first_tile_id : String
  first_filename : String
  deriving Repr, DecidableEq

/-- Lookup in the running `hash_dict`, keyed by content hash. -/
def lookupHash : List (String × TileRecord) → String → Option TileRecord
  | [], _ => none
  | (k, t) :: rest, h => if k = h then some t else lookupHash rest h

/-- One iteration of the tile loop of `find_duplicates` (tileMaker.py
lines 189-195): a hash already in `hash_dict` appends a duplicate tuple,
a fresh hash is inserted with its first-seen record. -/
def findDupStep (st : List (String × TileRecord) × List DupPair)
    (t : TileRecord) : List (String × TileRecord) × List DupPair :=
  match lookupHash st.1 t.hash with
  | some first =>
      (st.1, st.2 ++ [{ tile_id := t.tile_id
                        filename := t.filename
                        first_tile_id := first.tile_id
                        first_filename := first.filename }])
  | none => ((t.hash, t) :: st.1, st.2)

/-- The scan over one stream of tile records. -/
def findDupList (ts : List TileRecord) : List DupPair :=
  (ts.foldl findDupStep ([], [])).2

/-- `find_duplicates` (tileMaker.py lines 169-204) over a corpus of
manifests in discovery order: `hash_dict` and `duplicates` persist across
manifests, so the scan is the fold over the concatenated tile streams. -/
def find_duplicates (ms : List Manifest) : List DupPair :=
  findDupList (ms.flatMap Manifest.tiles)

/-- First-seen record with a given hash among the already-processed tiles;
the reference used to state what `hash_dict` holds. -/
def firstSeen (seen : List TileRecord) (h : String) : Option TileRecord :=
  seen.find? fun t => t.hash = h

/-- Reference formulation of the duplicate scan, written from the spec:
walking the stream in order, each record whose hash was already seen
contributes exactly one pair naming the first-seen occurrence; the first
argument accumulates the already-walked records. -/
def dupSpecAux : List TileRecord → List TileRecord → List DupPair
  | _, [] => []
  | pfx, t :: rest =>
      (match firstSeen pfx t.hash with
       | some f => [{ tile_id := t.tile_id
                      filename := t.filename
                      first_tile_id := f.tile_id
                      first_filename := f.filename }]
       | none => []) ++ dupSpecAux (pfx ++ [t]) rest

/-- Reference duplicate list for a tile stream. -/
def dupSpec (ts : List TileRecord) : List DupPair :=
  dupSpecAux [] ts

/-- One pairing pass of `create_merkle_root` (grayscaler.py lines 93-96):
`hash_file_name(hashes[i] + (hashes[i+1] if i + 1 < len(hashes) else ''))`
for `i = 0, 2, 4, ...`. -/
def merkleLevel (hf : String → String) : List String → List String
  | [] => []
  | [a] => [hf (a ++ "")]
  | a :: b :: rest => hf (a ++ b) :: merkleLevel hf rest

/-- `create_merkle_root` (grayscaler.py lines 90-97).  The only exit of the
recursion is `len(hashes) == 1`; on the empty list the code rebuilds the
empty list and recurses forever (Python dies with `RecursionError`), which
the embedding records as `none`. -/
def create_merkle_root (hf : String → String) : List String → Option String
  | [] => none
  | [a] => some a
  | a :: b :: rest =>
      create_merkle_root hf (merkleLevel hf (a :: b :: rest))
termination_by l => l.length
decreasing_by
  have hlen : ∀ l : List String, (merkleLevel hf l).length = (l.length + 1) / 2 := by
    intro l
    induction l using merkleLevel.induct hf <;> simp [merkleLevel, *]
    omega
  simp only [hlen, List.length_cons]
  omega

/-- Fuel-indexed evaluation of the same recursion, used to express that no
finite recursion depth lets the code return a value on the empty list. -/
def merkleFuel (hf : String → String) : Nat → List String → Option String
  | 0, _ => none
  | fuel + 1, hs =>
      if hs.length = 1 then hs.head?
      else merkleFuel hf fuel (merkleLevel hf hs)

/-- One pairing pass, written from the spec's words: elements are paired
left-to-right, an unpaired tail element is combined with the empty string
on the right. -/
def merkleLevelSpec (hf : String → String) (l : List String) : List String :=
  (List.range ((l.length + 1) / 2)).map fun k =>
    hf (l.getD (2 * k) "" ++ l.getD (2 * k + 1) "")

/-- The Merkle root, written from the spec's words: a single hash is
returned unchanged, otherwise pairing passes repeat until one remains. -/
def merkleRootSpec (hf : String → String) : List String → String
  | [] => ""
  | [a] => a
  | a :: b :: rest =>
      merkleRootSpec hf (merkleLevelSpec hf (a :: b :: rest))
termination_by l => l.length
decreasing_by
  simp only [merkleLevelSpec, List.length_map, List.length_range,
    List.length_cons]
  omega

/-- A reconstruction canvas: the numpy array
`np.zeros((height, width), dtype=np.uint16)` modelled as its dimensions
plus an indexing function. -/
structure Canvas where
  height : Nat
  width : Nat
  pix : Nat → Nat → Nat

/-- Membership of a pixel coordinate `(y, x)` in a tile's rectangle,
the slice `full_image[y_start:y_end, x_start:x_end]`. -/
def inRegion (p : Position) (y x : Nat) : Prop :=
  p.y_start ≤ y ∧ y < p.y_end ∧ p.x_start ≤ x ∧ x < p.x_end

instance (p : Position) (y x : Nat) : Decidable (inRegion p y x) := by
  unfold inRegion; infer_instance

/-- Two tile records whose rectangles share no pixel; tiles of one split
manifest are pairwise disjoint by construction. -/
def tilesDisjoint (a b : TileRecord) : Prop :=
  ∀ y x, ¬ (inRegion a.position y x ∧ inRegion b.position y x)

/-- Column count of a loaded block; a block models the rectangular 2-D
uint16 array `cv2.imread(..., cv2.IMREAD_UNCHANGED)` returns for a 16-bit
grayscale PNG, with shape `(block.length, blockCols block)`. -/
def blockCols (block : List (List Nat)) : Nat :=
  (block.headD []).length

/-- Whether the numpy slice assignment
`full_image[y_start:y_end, x_start:x_end] = tile_image`
(reconstruct.py line 86) accepts the block: numpy broadcasts, so each
source dimension must equal the slice's dimension or be 1 — a mis-sized
`(1, C)`-, `(R, 1)`- or `(1, 1)`-shaped tile is accepted silently; any
other shape raises, and the `except` of line 87 absorbs the error. -/
def blockBroadcastOk (p : Position) (block : List (List Nat)) : Bool :=
  (block.length == p.y_end - p.y_start || block.length == 1) &&
    (blockCols block == p.x_end - p.x_start || blockCols block == 1)

/-- Whether the loaded block has exactly the slice's shape (the intended,
well-formed tile-file case: no broadcasting involved). -/
def blockExact (p : Position) (block : List (List Nat)) : Bool :=
  (block.length == p.y_end - p.y_start) &&
    block.all fun row => row.length == p.x_end - p.x_start

/-- The sample numpy stores at canvas cell `(y, x)` of the slice: a source
dimension of size 1 is broadcast (index pinned to 0), otherwise the offset
into the slice indexes the block; storing into a uint16 array keeps values
modulo `2 ^ 16`. -/
def broadcastVal (p : Position) (block : List (List Nat)) (y x : Nat) :
    Nat :=
  ((block.getD (if block.length = 1 then 0 else y - p.y_start) []).getD
    (if blockCols block = 1 then 0 else x - p.x_start) 0) % 65536

/-- The slice assignment of reconstruct.py line 86 on the canvas. -/
def writeBlock (c : Nat → Nat → Nat) (p : Position)
    (block : List (List Nat)) : Nat → Nat → Nat :=
  fun y x =>
    if inRegion p y x then broadcastVal p block y x
    else c y x

/-- Whether the tile loads and is accepted: `cv2.imread` returns data
(`none` models an unreadable file) and the block broadcasts into the
slice. -/
def tileOk (store : String → Option (List (List Nat))) (t : TileRecord) :
    Bool :=
  match store t.filename with
  | none => false
  | some block => blockBroadcastOk t.position block

/-- The body of the tile loop of reconstruct.py lines 75-88: an unreadable
tile or a failing slice assignment is logged (the error list) and the
canvas is left as it was; otherwise the block is broadcast-assigned. -/
def placeTile (store : String → Option (List (List Nat)))
    (st : (Nat → Nat → Nat) × List String) (t : TileRecord) :
    (Nat → Nat → Nat) × List String :=
  match store t.filename with
  | none => (st.1, st.2 ++ [t.filename])
  | some block =>
      if blockBroadcastOk t.position block then
        (writeBlock st.1 t.position block, st.2)
      else (st.1, st.2 ++ [t.filename])

/-- `reconstruct_image_from_tiles` (reconstruct.py lines 44-97): canvas
sized by `width = max(x_coords)`, `height = max(y_coords)` (lines 66-72 —
Python's `max` raises an uncaught `ValueError` on a manifest with no
tiles, modelled as `Except.error`), then each tile placed in manifest
order.  The returned list collects the recoverable per-tile errors of
line 88. -/
def reconstruct_image_from_tiles (store : String → Option (List (List Nat)))
    (m : Manifest) : Except String (Canvas × List String) :=
  match m.tiles with
  | [] => .error "ValueError"
  | t0 :: rest =>
      let tiles := t0 :: rest
      let width := listMax (tiles.map fun t => t.position.x_end)
      let height := listMax (tiles.map fun t => t.position.y_end)
      let res := tiles.foldl (placeTile store) ((fun _ _ => 0), [])
      .ok ({ height := height, width := width, pix := res.1 }, res.2)

/-- The JSON values the scripts serialize with `json.dump`. -/
inductive Json where
  | str : String → Json
  | num : Nat → Json
  | arr : List Json → Json
  | obj : List (String × Json) → Json
  deriving Repr

/-- Top-level keys of a JSON object, in insertion order. -/
def jsonKeys : Json → List String
  | .obj l => l.map fun kv => kv.1
  | _ => []

/-- The `position` dictionary of tileMaker.py lines 146-151. -/
def positionJson (p : Position) : Json :=
  .obj [("x_start", .num p.x_start), ("y_start", .num p.y_start),
        ("x_end", .num p.x_end), ("y_end", .num p.y_end)]

/-- The `tile_metadata` dictionary of tileMaker.py lines 142-152. -/
def tileJson (t : TileRecord) : Json :=
  .obj [("tile_id", .str t.tile_id), ("filename", .str t.filename),
        ("hash", .str t.hash), ("position", positionJson t.position)]

/-- The `metadata` dictionary of tileMaker.py lines 102-106 as persisted at
line 164: keys `fits_file`, `tile_size`, `tiles`. -/
def manifestJson (m : Manifest) : Json :=
  .obj [("fits_file", .str m.fits_file), ("tile_size", .num m.tile_size),
        ("tiles", .arr (m.tiles.map tileJson))]

theorem listMin_le {l : List Nat} (v : Nat) (h : v ∈ l) : listMin l ≤ v := by
  induction l using listMin.induct with
  | case1 => simp at h
  | case2 a => rw [List.mem_singleton] at h; simp [listMin, h]
  | case3 a b r ih =>
      rw [List.mem_cons] at h
      show min a (listMin (b :: r)) ≤ v
      rcases h with rfl | h
      · exact min_le_left _ _
      · exact le_trans (min_le_right _ _) (ih h)

theorem le_listMax {l : List Nat} (v : Nat) (h : v ∈ l) : v ≤ listMax l := by
  induction l using listMax.induct with
  | case1 => simp at h
  | case2 a => rw [List.mem_singleton] at h; simp [listMax, h]
  | case3 a b r ih =>
      rw [List.mem_cons] at h
      show v ≤ max a (listMax (b :: r))
      rcases h with rfl | h
      · exact le_max_left _ _
      · exact le_trans (ih h) (le_max_right _ _)

theorem listMin_const {l : List Nat} {v : Nat} (hne : l ≠ [])
    (hc : ∀ x ∈ l, x = v) : listMin l = v := by
  induction l using listMin.induct with
  | case1 => exact absurd rfl hne
  | case2 a => simpa [listMin] using hc a (by simp)
  | case3 a b r ih =>
      show min a (listMin (b :: r)) = v
      rw [hc a (by simp), ih (by simp) fun x hx => hc x (List.mem_cons_of_mem a hx)]
      exact min_self v

theorem listMax_const {l : List Nat} {v : Nat} (hne : l ≠ [])
    (hc : ∀ x ∈ l, x = v) : listMax l = v := by
  induction l using listMax.induct with
  | case1 => exact absurd rfl hne
  | case2 a => simpa [listMax] using hc a (by simp)
  | case3 a b r ih =>
      show max a (listMax (b :: r)) = v
      rw [hc a (by simp), ih (by simp) fun x hx => hc x (List.mem_cons_of_mem a hx)]
      exact max_self v

theorem length_flatMap_range_map {α : Type} (rows cols : Nat)
    (f : Nat → Nat → α) :
    ((List.range rows).flatMap fun i => (List.range cols).map (f i)).length =
      rows * cols := by
  induction rows with
  | zero => simp
  | succ n ih =>
      rw [List.range_succ, List.flatMap_append, List.length_append, ih]
      simp [Nat.succ_mul]

theorem getElem?_flatMap_range_map {α : Type} {rows cols r c : Nat}
    (f : Nat → Nat → α) (hr : r < rows) (hc : c < cols) :
    ((List.range rows).flatMap fun i =>
      (List.range cols).map (f i))[r * cols + c]? = some (f r c) := by
  induction rows with
  | zero => omega
  | succ n ih =>
      rw [List.range_succ, List.flatMap_append]
      rcases Nat.lt_or_ge r n with h | h
      · rw [List.getElem?_append_left (by
          rw [length_flatMap_range_map]
          calc r * cols + c < r * cols + cols := by omega
            _ = (r + 1) * cols := by ring
            _ ≤ n * cols := Nat.mul_le_mul_right cols h)]
        exact ih h
      · have hrn : r = n := by omega
        subst hrn
        rw [List.getElem?_append_right (by rw [length_flatMap_range_map]; omega)]
        rw [length_flatMap_range_map, Nat.add_sub_cancel_left]
        simp [List.getElem?_map, List.getElem?_range hc]

theorem mem_flatten_tileBlock {pix : Nat → Nat → Nat} {T i j di dj : Nat}
    (hdi : di < T) (hdj : dj < T) :
    pix (i * T + di) (j * T + dj) ∈ (tileBlock pix T i j).flatten := by
  rw [List.mem_flatten]
  refine ⟨(List.range T).map fun dj => pix (i * T + di) (j * T + dj), ?_, ?_⟩
  · exact List.mem_map_of_mem _ (List.mem_range.mpr hdi)
  · exact List.mem_map_of_mem _ (List.mem_range.mpr hdj)

theorem normalizeVal_eq_floor {lo hi v : Nat} (hlo : lo ≤ v) (hlt : lo < hi) :
    normalizeVal lo hi v =
      Nat.floor ((((v : ℚ) - lo) / ((hi : ℚ) - lo)) * 65535) := by
  rw [show ((v : ℚ) - lo) = ((v - lo : Nat) : ℚ) by
        rw [Nat.cast_sub hlo],
      show ((hi : ℚ) - lo) = ((hi - lo : Nat) : ℚ) by
        rw [Nat.cast_sub hlt.le],
      div_mul_eq_mul_div,
      show ((v - lo : Nat) : ℚ) * 65535 = (((v - lo) * 65535 : Nat) : ℚ) by
        push_cast; ring,
      Nat.floor_div_nat, Nat.floor_natCast]
  rfl

theorem normalizeTile_const (T v : Nat) :
    normalizeTile T (List.replicate T (List.replicate T v)) = zeroTile T := by
  unfold normalizeTile
  rcases Nat.eq_zero_or_pos T with hT | hT
  · subst hT; rfl
  · have hc : ∀ x ∈ (List.replicate T (List.replicate T v)).flatten, x = v := by
      intro x hx
      rw [List.mem_flatten] at hx
      obtain ⟨l, hl, hxl⟩ := hx
      rw [List.mem_replicate] at hl
      rw [hl.2, List.mem_replicate] at hxl
      exact hxl.2
    have hne : (List.replicate T (List.replicate T v)).flatten ≠ [] := by
      have : v ∈ (List.replicate T (List.replicate T v)).flatten := by
        rw [List.mem_flatten]
        exact ⟨List.replicate T v,
          List.mem_replicate.mpr ⟨hT.ne', rfl⟩,
          List.mem_replicate.mpr ⟨hT.ne', rfl⟩⟩
      exact List.ne_nil_of_mem this
    rw [listMin_const hne hc, listMax_const hne hc, if_pos rfl]

theorem merkleLevel_length (hf : String → String) (l : List String) :
    (merkleLevel hf l).length = (l.length + 1) / 2 := by
  induction l using merkleLevel.induct hf <;> simp [merkleLevel, *]
  omega

theorem merkleLevel_eq_spec (hf : String → String) (l : List String) :
    merkleLevel hf l = merkleLevelSpec hf l := by
  induction l using merkleLevel.induct hf with
  | case1 => simp [merkleLevel, merkleLevelSpec]
  | case2 a =>
      simp [merkleLevel, merkleLevelSpec, List.range_succ, List.getD_cons_succ,
        List.getD_cons_zero]
  | case3 a b rest ih =>
      show hf (a ++ b) :: merkleLevel hf rest = _
      rw [ih]
      unfold merkleLevelSpec
      have hlen : ((a :: b :: rest).length + 1) / 2 = (rest.length + 1) / 2 + 1 := by
        simp; omega
      rw [hlen, List.range_succ_eq_map, List.map_cons, List.map_map]
      congr 1

theorem create_merkle_root_eq_spec (hf : String → String) :
    ∀ (n : Nat) (hs : List String), hs.length ≤ n → hs ≠ [] →
      create_merkle_root hf hs = some (merkleRootSpec hf hs) := by
  intro n
  induction n with
  | zero =>
      intro hs hlen hne
      cases hs with
      | nil => exact absurd rfl hne
      | cons a t => simp at hlen
  | succ n ih =>
      intro hs hlen hne
      match hs with
      | [a] => simp [create_merkle_root, merkleRootSpec]
      | a :: b :: rest =>
          rw [create_merkle_root, merkleRootSpec, ← merkleLevel_eq_spec]
          apply ih
          · rw [merkleLevel_length]
            simp only [List.length_cons] at hlen ⊢
            omega
          · intro hemp
            have hl := merkleLevel_length hf (a :: b :: rest)
            rw [hemp] at hl
            simp at hl
            omega

theorem firstSeen_append (seen : List TileRecord) (t : TileRecord)
    (h : String) :
    firstSeen (seen ++ [t]) h =
      (firstSeen seen h).or (if t.hash = h then some t else none) := by
  unfold firstSeen
  rw [List.find?_append]
  congr 1
  simp [List.find?]
  split <;> simp_all

theorem findDup_go (ts : List TileRecord) :
    ∀ (pfx : List TileRecord) (seen : List (String × TileRecord))
      (dups : List DupPair),
      (∀ h, lookupHash seen h = firstSeen pfx h) →
      (ts.foldl findDupStep (seen, dups)).2 = dups ++ dupSpecAux pfx ts := by
  induction ts with
  | nil => intro pfx seen dups hinv; simp [dupSpecAux]
  | cons t rest ih =>
      intro pfx seen dups hinv
      rw [List.foldl_cons, dupSpecAux]
      cases hfs : firstSeen pfx t.hash with
      | some f =>
          have hstep : findDupStep (seen, dups) t =
              (seen, dups ++ [{ tile_id := t.tile_id
                                filename := t.filename
                                first_tile_id := f.tile_id
                                first_filename := f.filename }]) := by
            unfold findDupStep
            rw [hinv t.hash, hfs]
          rw [hstep, ih (pfx ++ [t]) seen _ ?_]
          · simp
          · intro h
            rw [hinv h, firstSeen_append]
            cases hph : firstSeen pfx h with
            | some g => simp
            | none =>
                simp only [Option.none_or]
                by_cases hth : t.hash = h
                · subst hth; rw [hfs] at hph; cases hph
                · rw [if_neg hth]
      | none =>
          have hstep : findDupStep (seen, dups) t = ((t.hash, t) :: seen, dups) := by
            unfold findDupStep
            rw [hinv t.hash, hfs]
          rw [hstep, ih (pfx ++ [t]) ((t.hash, t) :: seen) _ ?_]
          · simp
          · intro h
            rw [firstSeen_append]
            show (if t.hash = h then some t else lookupHash seen h) = _
            rw [hinv h]
            by_cases hth : t.hash = h
            · subst hth; rw [hfs]; simp
            · rw [if_neg hth]
              cases hph : firstSeen pfx h <;> simp [hth]

theorem dupSpecAux_nil_of_distinct :
    ∀ (ts pfx : List TileRecord),
      (∀ t ∈ ts, ∀ f ∈ pfx, f.hash ≠ t.hash) →
      ts.Pairwise (fun a b => a.hash ≠ b.hash) →
      dupSpecAux pfx ts = [] := by
  intro ts
  induction ts with
  | nil => intro pfx _ _; rfl
  | cons t rest ih =>
      intro pfx hfresh hpw
      rw [dupSpecAux]
      have hnone : firstSeen pfx t.hash = none := by
        unfold firstSeen
        rw [List.find?_eq_none]
        intro f hf
        simpa using hfresh t (by simp) f hf
      rw [hnone]
      rw [List.pairwise_cons] at hpw
      rw [ih (pfx ++ [t]) ?_ hpw.2]
      · rfl
      · intro u hu f hf
        rcases List.mem_append.mp hf with hf | hf
        · exact hfresh u (List.mem_cons_of_mem t hu) f hf
        · rw [List.mem_singleton.mp hf]
          exact hpw.1 u hu

theorem tilesDisjoint_symm : Symmetric tilesDisjoint := by
  intro a b h y x hc
  exact h y x ⟨hc.2, hc.1⟩

theorem blockExact_broadcastOk {p : Position} {block : List (List Nat)}
    (hex : blockExact p block = true) (hR : 0 < p.y_end - p.y_start) :
    blockBroadcastOk p block = true := by
  unfold blockExact at hex
  rw [Bool.and_eq_true] at hex
  obtain ⟨hlen, hrows⟩ := hex
  rw [beq_iff_eq] at hlen
  rw [List.all_eq_true] at hrows
  cases block with
  | nil => simp at hlen; omega
  | cons r0 rest =>
      have hr0 := hrows r0 (by simp)
      rw [beq_iff_eq] at hr0
      unfold blockBroadcastOk blockCols
      simp only [List.headD_cons]
      rw [hlen, hr0]
      simp

theorem broadcastVal_exact {p : Position} {block : List (List Nat)}
    {y x : Nat} (hex : blockExact p block = true) (hin : inRegion p y x) :
    broadcastVal p block y x =
      (block.getD (y - p.y_start) []).getD (x - p.x_start) 0 % 65536 := by
  unfold blockExact at hex
  rw [Bool.and_eq_true] at hex
  obtain ⟨hlen, hrows⟩ := hex
  rw [beq_iff_eq] at hlen
  rw [List.all_eq_true] at hrows
  obtain ⟨hy0, hy1, hx0, hx1⟩ := hin
  have hcols : blockCols block = p.x_end - p.x_start := by
    cases block with
    | nil => simp at hlen; omega
    | cons r0 rest =>
        have hr0 := hrows r0 (by simp)
        rw [beq_iff_eq] at hr0
        unfold blockCols
        simpa using hr0
  unfold broadcastVal
  have hrowidx : (if block.length = 1 then 0 else y - p.y_start) =
      y - p.y_start := by
    split
    · omega
    · rfl
  have hcolidx : (if blockCols block = 1 then 0 else x - p.x_start) =
      x - p.x_start := by
    rw [hcols]
    split
    · omega
    · rfl
  rw [hrowidx, hcolidx]

theorem placeTile_snd (store : String → Option (List (List Nat)))
    (st : (Nat → Nat → Nat) × List String) (t : TileRecord) :
    (placeTile store st t).2 =
      if tileOk store t then st.2 else st.2 ++ [t.filename] := by
  unfold placeTile tileOk
  cases hs : store t.filename with
  | none => simp
  | some block => cases hd : blockBroadcastOk t.position block <;> simp [hd]

theorem placeTile_fst_eq (store : String → Option (List (List Nat)))
    (st : (Nat → Nat → Nat) × List String) (t : TileRecord) (y x : Nat)
    (h : tileOk store t = false ∨ ¬ inRegion t.position y x) :
    (placeTile store st t).1 y x = st.1 y x := by
  unfold placeTile
  cases hs : store t.filename with
  | none => rfl
  | some block =>
      cases hd : blockBroadcastOk t.position block with
      | false => simp [hd]
      | true =>
          have hreg : ¬ inRegion t.position y x := by
            rcases h with h | h
            · unfold tileOk at h
              rw [hs] at h
              have h2 : blockBroadcastOk t.position block = false := h
              rw [hd] at h2
              cases h2
            · exact h
          simp [hd, writeBlock, hreg]

theorem placeTile_fst_write (store : String → Option (List (List Nat)))
    (st : (Nat → Nat → Nat) × List String) (t : TileRecord)
    (block : List (List Nat)) (y x : Nat)
    (hs : store t.filename = some block)
    (hd : blockBroadcastOk t.position block = true)
    (hin : inRegion t.position y x) :
    (placeTile store st t).1 y x = broadcastVal t.position block y x := by
  unfold placeTile
  simp [hs, hd, writeBlock, hin]

theorem foldl_placeTile_errors (store : String → Option (List (List Nat)))
    (ts : List TileRecord) :
    ∀ st, (ts.foldl (placeTile store) st).2 =
      st.2 ++ ((ts.filter fun t => !tileOk store t).map fun t => t.filename) := by
  induction ts with
  | nil => intro st; simp
  | cons t rest ih =>
      intro st
      rw [List.foldl_cons, ih, placeTile_snd, List.filter_cons]
      cases htk : tileOk store t <;> simp

theorem foldl_placeTile_untouched (store : String → Option (List (List Nat)))
    (y x : Nat) :
    ∀ (ts : List TileRecord) st,
      (∀ t ∈ ts, tileOk store t = true → ¬ inRegion t.position y x) →
      (ts.foldl (placeTile store) st).1 y x = st.1 y x := by
  intro ts
  induction ts with
  | nil => intro st _; rfl
  | cons t rest ih =>
      intro st hcond
      rw [List.foldl_cons, ih _ fun u hu => hcond u (List.mem_cons_of_mem t hu)]
      apply placeTile_fst_eq
      cases htk : tileOk store t with
      | false => exact Or.inl rfl
      | true => exact Or.inr (hcond t (by simp) htk)

theorem foldl_placeTile_write (store : String → Option (List (List Nat)))
    (y x : Nat) (t : TileRecord) (block : List (List Nat))
    (hs : store t.filename = some block)
    (hd : blockBroadcastOk t.position block = true)
    (hin : inRegion t.position y x) :
    ∀ (ts : List TileRecord) st, t ∈ ts → ts.Pairwise tilesDisjoint →
      (ts.foldl (placeTile store) st).1 y x =
        broadcastVal t.position block y x := by
  intro ts
  induction ts with
  | nil => intro st hmem _; simp at hmem
  | cons u rest ih =>
      intro st hmem hpw
      rw [List.pairwise_cons] at hpw
      rw [List.foldl_cons]
      rcases List.mem_cons.mp hmem with rfl | hmem
      · rw [foldl_placeTile_untouched store y x rest _ ?_]
        · exact placeTile_fst_write store st t block y x hs hd hin
        · intro v hv _ hvin
          exact hpw.1 v hv y x ⟨hin, hvin⟩
      · exact ih _ hmem hpw.2

/-- C1 (amended): for every 2-D raster of height `Hgt` and width `W` and
every positive tile size `T` whose tile grid is non-empty
(`floor(W/T) * floor(Hgt/T) ≥ 1`), `fits_to_tiles` succeeds and its
manifest holds exactly `floor(W/T) * floor(Hgt/T)` tile records; the
record of grid cell `(r, c)` sits at row-major index `r * floor(W/T) + c`
and occupies the rectangle `x_start = c*T`, `y_start = r*T`,
`x_end = (c+1)*T`, `y_end = (r+1)*T` (so tiles are `T × T`,
non-overlapping, and any remainder strip is excluded by the floor grid).
On an empty grid the program instead dies with the uncaught
`ZeroDivisionError` of tileMaker.py line 157 and persists nothing. -/
theorem split_grid_coverage (hf : List (List Nat) → String) (name : String)
    (pix : Nat → Nat → Nat) (T W Hgt : Nat) (hT : 0 < T)
    (hgrid : 0 < (W / T) * (Hgt / T)) :
    fits_to_tiles hf name [Hgt, W] pix T =
      .ok ({ fits_file := name, tile_size := T,
             tiles := splitTiles hf name pix T (Hgt / T) (W / T) },
           splitWarnings pix T (Hgt / T) (W / T)) ∧
    (splitTiles hf name pix T (Hgt / T) (W / T)).length =
      (W / T) * (Hgt / T) ∧
    ∀ r c, r < Hgt / T → c < W / T →
      (splitTiles hf name pix T (Hgt / T) (W / T))[r * (W / T) + c]? =
        some (tileRecordOf hf name pix T r c) ∧
      (tileRecordOf hf name pix T r c).position =
        { x_start := c * T, y_start := r * T,
          x_end := (c + 1) * T, y_end := (r + 1) * T } := by
  refine ⟨?_, ?_, ?_⟩
  · simp [fits_to_tiles, hT.ne', hgrid.ne']
  · unfold splitTiles
    rw [length_flatMap_range_map, Nat.mul_comm]
  · intro r c hr hc
    exact ⟨getElem?_flatMap_range_map _ hr hc, rfl⟩

theorem split_grid_coverage_witness :
    (splitTiles (fun _ => "h") "img" (fun i j => i + j) 1 (1 / 1) (2 / 1)).length =
      2 / 1 * (1 / 1) ∧
    (splitTiles (fun _ => "h") "img" (fun i j => i + j) 1
        (1 / 1) (2 / 1))[0 * (2 / 1) + 1]? =
      some (tileRecordOf (fun _ => "h") "img" (fun i j => i + j) 1 0 1) :=
  ⟨(split_grid_coverage (fun _ => "h") "img" (fun i j => i + j) 1 2 1
      (by decide) (by decide)).2.1,
   ((split_grid_coverage (fun _ => "h") "img" (fun i j => i + j) 1 2 1
      (by decide) (by decide)).2.2 0 1 (by decide) (by decide)).1⟩

/-- C1 counterexample: a 100×100 raster with tile size 500 has
`floor(100/500) * floor(100/500) = 0` tiles; the claim asserts a manifest
with zero records is produced, but the program crashes with the uncaught
`ZeroDivisionError` of `avg_time_per_tile = elapsed_time / total_tiles`
(tileMaker.py line 157) before the manifest dump: no manifest exists. -/
theorem split_small_raster_crash :
    fits_to_tiles (fun _ => "h") "img" [100, 100] (fun _ _ => 0) 500 =
      .error "ZeroDivisionError" ∧
    ¬ ∃ s, fits_to_tiles (fun _ => "h") "img" [100, 100] (fun _ _ => 0) 500 =
      .ok s :=
  ⟨rfl, by rintro ⟨s, hs⟩; simp [fits_to_tiles] at hs⟩

/-- C9: an input raster that is not exactly 2-dimensional makes
`fits_to_tiles` fail with `InputError`; no manifest value is produced. -/
theorem split_rejects_non2d (hf : List (List Nat) → String) (name : String)
    (shape : List Nat) (pix : Nat → Nat → Nat) (T : Nat)
    (h : shape.length ≠ 2) :
    fits_to_tiles hf name shape pix T = .error "InputError" := by
  unfold fits_to_tiles
  match shape, h with
  | [], _ => rfl
  | [a], _ => rfl
  | [a, b], h => simp at h
  | a :: b :: c :: rest, _ => rfl

theorem split_rejects_non2d_witness :
    fits_to_tiles (fun _ => "h") "cube" [2, 2, 2] (fun _ _ => 0) 5 =
      .error "InputError" :=
  split_rejects_non2d (fun _ => "h") "cube" [2, 2, 2] (fun _ _ => 0) 5
    (by decide)

/-- C6: a degenerate tile (local min equals local max) produces a warning
event for its cell, its record still appears at its row-major index with
the hash of the substituted all-zero tile, and the full grid of records is
still produced (no later tile is skipped). -/
theorem split_degenerate_tile (hf : List (List Nat) → String) (name : String)
    (pix : Nat → Nat → Nat) (T W Hgt r c : Nat) (hT : 0 < T)
    (hr : r < Hgt / T) (hc : c < W / T)
    (hdeg : degenerateCell pix T r c) :
    fits_to_tiles hf name [Hgt, W] pix T =
      .ok ({ fits_file := name, tile_size := T,
             tiles := splitTiles hf name pix T (Hgt / T) (W / T) },
           splitWarnings pix T (Hgt / T) (W / T)) ∧
    (r, c) ∈ splitWarnings pix T (Hgt / T) (W / T) ∧
    (splitTiles hf name pix T (Hgt / T) (W / T))[r * (W / T) + c]? =
      some (tileRecordOf hf name pix T r c) ∧
    (tileRecordOf hf name pix T r c).hash = hf (zeroTile T) ∧
    (splitTiles hf name pix T (Hgt / T) (W / T)).length =
      (W / T) * (Hgt / T) := by
  have hgrid : (W / T) * (Hgt / T) ≠ 0 :=
    Nat.mul_ne_zero (Nat.zero_lt_of_lt hc).ne' (Nat.zero_lt_of_lt hr).ne'
  refine ⟨?_, ?_, ?_, ?_, ?_⟩
  · simp [fits_to_tiles, hT.ne', hgrid]
  · unfold splitWarnings
    rw [List.mem_flatMap]
    refine ⟨r, List.mem_range.mpr hr, List.mem_filterMap.mpr
      ⟨c, List.mem_range.mpr hc, ?_⟩⟩
    rw [if_pos hdeg]
  · exact getElem?_flatMap_range_map _ hr hc
  · show hf (normalizeTile T (tileBlock pix T r c)) = hf (zeroTile T)
    have hd2 : listMax (tileBlock pix T r c).flatten =
        listMin (tileBlock pix T r c).flatten := hdeg
    unfold normalizeTile
    rw [if_pos hd2]
  · unfold splitTiles
    rw [length_flatMap_range_map, Nat.mul_comm]

theorem split_degenerate_tile_witness :
    (0, 0) ∈ splitWarnings (fun _ _ => 7) 1 (1 / 1) (1 / 1) ∧
    (tileRecordOf (fun _ => "h") "img" (fun _ _ => 7) 1 0 0).hash =
      (fun _ : List (List Nat) => "h") (zeroTile 1) := by
  have h := split_degenerate_tile (fun _ => "h") "img" (fun _ _ => 7) 1 1 1 0 0
    (by decide) (by decide) (by decide) (by decide)
  exact ⟨h.2.1, h.2.2.2.1⟩

/-- C2 (amended): for a non-degenerate tile, each normalized sample equals
`floor((v - min) / (max - min) * 65535)` — the code truncates via
`astype(np.uint16)`, it does not round. -/
theorem split_normalization_floor (pix : Nat → Nat → Nat)
    (T r c di dj : Nat) (hdi : di < T) (hdj : dj < T)
    (hnd : listMin (tileBlock pix T r c).flatten <
      listMax (tileBlock pix T r c).flatten) :
    ∃ nrow, (normalizeTile T (tileBlock pix T r c))[di]? = some nrow ∧
      nrow[dj]? = some (Nat.floor
        (((pix (r * T + di) (c * T + dj) : ℚ) -
            (listMin (tileBlock pix T r c).flatten : ℚ)) /
          ((listMax (tileBlock pix T r c).flatten : ℚ) -
            (listMin (tileBlock pix T r c).flatten : ℚ)) * 65535)) := by
  have hne : listMax (tileBlock pix T r c).flatten ≠
      listMin (tileBlock pix T r c).flatten := ne_of_gt hnd
  have hrow : (tileBlock pix T r c)[di]? =
      some ((List.range T).map fun dj => pix (r * T + di) (c * T + dj)) := by
    unfold tileBlock
    rw [List.getElem?_map, List.getElem?_range hdi]
    rfl
  refine ⟨List.map (normalizeVal (listMin (tileBlock pix T r c).flatten)
      (listMax (tileBlock pix T r c).flatten))
      ((List.range T).map fun dj => pix (r * T + di) (c * T + dj)), ?_, ?_⟩
  · unfold normalizeTile
    rw [if_neg hne, List.getElem?_map, hrow]
    rfl
  · rw [List.getElem?_map, List.getElem?_map, List.getElem?_range hdj]
    show some (normalizeVal _ _ _) = _
    rw [normalizeVal_eq_floor
      (listMin_le _ (mem_flatten_tileBlock hdi hdj)) hnd]

theorem split_normalization_floor_witness :
    ∃ nrow,
      (normalizeTile 2 (tileBlock (fun i j => i + j) 2 0 0))[0]? = some nrow ∧
      nrow[1]? = some (Nat.floor
        ((((0 * 2 + 0 + (0 * 2 + 1) : Nat) : ℚ) -
            (listMin (tileBlock (fun i j => i + j) 2 0 0).flatten : ℚ)) /
          ((listMax (tileBlock (fun i j => i + j) 2 0 0).flatten : ℚ) -
            (listMin (tileBlock (fun i j => i + j) 2 0 0).flatten : ℚ)) *
          65535)) :=
  split_normalization_floor (fun i j => i + j) 2 0 0 0 1 (by decide)
    (by decide) (by decide)

/-- C2 counterexample: the tile `[[0, 1], [2, 2]]` has min 0 and max 2;
the code normalizes the sample `1` to `32767` (truncation), while
`round((1 - 0) / (2 - 0) * 65535) = round(32767.5) = 32768`, so the
claimed rounding formula does not describe the code. -/
theorem split_normalization_round_counterexample :
    normalizeTile 2 [[0, 1], [2, 2]] = [[0, 32767], [65535, 65535]] ∧
    round (((1 : ℚ) - 0) / ((2 : ℚ) - 0) * 65535) = 32768 ∧
    (32767 : ℤ) ≠ 32768 :=
  ⟨by decide, by norm_num [round_eq], by decide⟩

/-- C4: for every non-empty hash list the code's Merkle root equals the
reference algorithm written from the spec (pair left-to-right within a
level, an odd level's final element combined with the empty string on the
right, repeat until one hash remains), and a singleton list returns its
element unchanged. -/
theorem create_merkle_root_matches_spec (hf : String → String)
    (hs : List String) (hne : hs ≠ []) :
    create_merkle_root hf hs = some (merkleRootSpec hf hs) ∧
    ∀ x : String, create_merkle_root hf [x] = some x := by
  refine ⟨create_merkle_root_eq_spec hf hs.length hs le_rfl hne, ?_⟩
  intro x
  simp [create_merkle_root]

theorem create_merkle_root_matches_spec_witness :
    create_merkle_root (fun s => "H" ++ s) ["a", "b", "c"] =
      some (merkleRootSpec (fun s => "H" ++ s) ["a", "b", "c"]) ∧
    create_merkle_root (fun s => "H" ++ s) ["q"] = some "q" :=
  ⟨(create_merkle_root_matches_spec (fun s => "H" ++ s) ["a", "b", "c"]
      (by decide)).1,
   (create_merkle_root_matches_spec (fun s => "H" ++ s) ["q"]
      (by decide)).2 "q"⟩

/-- C7: on the empty hash list the Merkle operation neither fails with an
`InputError` nor returns a sentinel root: its only exit is
`len(hashes) == 1`, the empty list rebuilds the empty list, so no
recursion depth produces a value — the code diverges (Python dies with
`RecursionError`). -/
theorem merkle_empty_diverges (hf : String → String) :
    (∀ fuel : Nat, merkleFuel hf fuel [] = none) ∧
    create_merkle_root hf [] = none := by
  constructor
  · intro fuel
    induction fuel with
    | zero => rfl
    | succ n ih => simpa [merkleFuel, merkleLevel] using ih
  · simp [create_merkle_root]

/-- C3: the duplicate scan over a manifest corpus equals the reference
description written from the spec — walking all tile records in order,
each record whose content hash was already seen contributes exactly one
pair naming the first-seen occurrence of that hash — and it reports
nothing when all hashes in the corpus are distinct. -/
theorem find_duplicates_matches_spec (ms : List Manifest) :
    find_duplicates ms = dupSpec (ms.flatMap Manifest.tiles) ∧
    ((ms.flatMap Manifest.tiles).Pairwise (fun a b => a.hash ≠ b.hash) →
      find_duplicates ms = []) := by
  have h1 : find_duplicates ms = dupSpec (ms.flatMap Manifest.tiles) := by
    unfold find_duplicates findDupList dupSpec
    have h := findDup_go (ms.flatMap Manifest.tiles) [] [] [] fun h => rfl
    simpa using h
  refine ⟨h1, fun hpw => ?_⟩
  rw [h1]
  unfold dupSpec
  exact dupSpecAux_nil_of_distinct _ [] (by simp) hpw

theorem find_duplicates_matches_spec_witness :
    find_duplicates [⟨"m", 2,
        [⟨"a", "a.png", "h1", ⟨0, 0, 2, 2⟩⟩,
         ⟨"b", "b.png", "h2", ⟨2, 0, 4, 2⟩⟩]⟩] =
      dupSpec ([⟨"m", 2,
        [⟨"a", "a.png", "h1", ⟨0, 0, 2, 2⟩⟩,
         ⟨"b", "b.png", "h2", ⟨2, 0, 4, 2⟩⟩]⟩].flatMap Manifest.tiles) ∧
    find_duplicates [⟨"m", 2,
        [⟨"a", "a.png", "h1", ⟨0, 0, 2, 2⟩⟩,
         ⟨"b", "b.png", "h2", ⟨2, 0, 4, 2⟩⟩]⟩] = [] :=
  ⟨(find_duplicates_matches_spec _).1,
   (find_duplicates_matches_spec _).2 (by decide)⟩

/-- C10: two constant-valued (hence degenerate) tiles of the same tile
size are both replaced by the all-zero tile before hashing, so they
receive the same content hash whatever their constant values are, and the
duplicate detector reports the later one as a duplicate of the first. -/
theorem degenerate_tiles_collide (hf : List (List Nat) → String)
    (T v₁ v₂ : Nat) (id1 f1 id2 f2 : String) (p1 p2 : Position)
    (_hT : 0 < T) :
    hf (normalizeTile T (List.replicate T (List.replicate T v₁))) =
      hf (normalizeTile T (List.replicate T (List.replicate T v₂))) ∧
    find_duplicates [{ fits_file := "m", tile_size := T, tiles :=
        [{ tile_id := id1, filename := f1,
           hash := hf (normalizeTile T (List.replicate T (List.replicate T v₁))),
           position := p1 },
         { tile_id := id2, filename := f2,
           hash := hf (normalizeTile T (List.replicate T (List.replicate T v₂))),
           position := p2 }] }] =
      [{ tile_id := id2, filename := f2, first_tile_id := id1,
         first_filename := f1 }] := by
  rw [normalizeTile_const, normalizeTile_const]
  constructor
  · rfl
  · simp [find_duplicates, findDupList, findDupStep, lookupHash]

theorem degenerate_tiles_collide_witness :
    (fun _ : List (List Nat) => "k")
        (normalizeTile 2 (List.replicate 2 (List.replicate 2 3))) =
      (fun _ : List (List Nat) => "k")
        (normalizeTile 2 (List.replicate 2 (List.replicate 2 5))) ∧
    find_duplicates [{ fits_file := "m", tile_size := 2, tiles :=
        [{ tile_id := "t1", filename := "f1", hash := "k",
           position := ⟨0, 0, 2, 2⟩ },
         { tile_id := "t2", filename := "f2", hash := "k",
           position := ⟨2, 0, 4, 2⟩ }] }] =
      [{ tile_id := "t2", filename := "f2", first_tile_id := "t1",
         first_filename := "f1" }] :=
  degenerate_tiles_collide (fun _ => "k") 2 3 5 "t1" "f1" "t2" "f2"
    ⟨0, 0, 2, 2⟩ ⟨2, 0, 4, 2⟩ (by decide)

/-- C5 (amended): for every manifest holding at least one tile record,
with pairwise disjoint tile rectangles (as split produces them),
reconstruction returns without a fatal error a canvas of width
`max(x_end)` and height `max(y_end)`; a tile that is unreadable or whose
block cannot broadcast into its rectangle yields exactly one recoverable
error and leaves its region all zero; a tile whose block numpy broadcasting
accepts — including silently accepted mis-sized `(1,C)`/`(R,1)`/`(1,1)`
blocks — fills its region with the broadcast samples and logs no error; in
particular a block of exactly the slice's shape fills its region with its
own pixel samples (stored 16-bit). -/
theorem reconstruct_partial_failure
    (store : String → Option (List (List Nat))) (m : Manifest)
    (hne : m.tiles ≠ []) (hdisj : m.tiles.Pairwise tilesDisjoint) :
    ∃ canvas errs,
      reconstruct_image_from_tiles store m = .ok (canvas, errs) ∧
      canvas.width = listMax (m.tiles.map fun t => t.position.x_end) ∧
      canvas.height = listMax (m.tiles.map fun t => t.position.y_end) ∧
      errs = ((m.tiles.filter fun t => !tileOk store t).map
        fun t => t.filename) ∧
      (∀ t ∈ m.tiles, tileOk store t = false →
        ∀ y x, inRegion t.position y x → canvas.pix y x = 0) ∧
      (∀ t ∈ m.tiles, ∀ block, store t.filename = some block →
        blockBroadcastOk t.position block = true →
        ∀ y x, inRegion t.position y x →
          canvas.pix y x = broadcastVal t.position block y x) ∧
      (∀ t ∈ m.tiles, ∀ block, store t.filename = some block →
        blockExact t.position block = true →
        ∀ y x, inRegion t.position y x →
          canvas.pix y x =
            (block.getD (y - t.position.y_start) []).getD
              (x - t.position.x_start) 0 % 65536) := by
  obtain ⟨mf, mts, mtiles⟩ := m
  cases mtiles with
  | nil => simp at hne
  | cons t0 rest =>
      simp only at hdisj ⊢
      refine ⟨⟨listMax ((t0 :: rest).map fun t : TileRecord => t.position.y_end),
               listMax ((t0 :: rest).map fun t : TileRecord => t.position.x_end),
               ((t0 :: rest).foldl (placeTile store) (fun _ _ => 0, [])).1⟩,
             ((t0 :: rest).foldl (placeTile store) (fun _ _ => 0, [])).2,
             rfl, rfl, rfl, ?_, ?_, ?_, ?_⟩
      · simpa using foldl_placeTile_errors store (t0 :: rest) (fun _ _ => 0, [])
      · intro t hmem htk y x hin
        show ((t0 :: rest).foldl (placeTile store) (fun _ _ => 0, [])).1 y x = 0
        rw [foldl_placeTile_untouched store y x (t0 :: rest) _ ?_]
        intro u hu htu hureg
        by_cases hut : u = t
        · subst hut
          rw [htk] at htu
          cases htu
        · exact List.Pairwise.forall tilesDisjoint_symm hdisj hmem hu
            (Ne.symm hut) y x ⟨hin, hureg⟩
      · intro t hmem block hs hd y x hin
        exact foldl_placeTile_write store y x t block hs hd hin
          (t0 :: rest) _ hmem hdisj
      · intro t hmem block hs hex y x hin
        have hbro : blockBroadcastOk t.position block = true := by
          apply blockExact_broadcastOk hex
          obtain ⟨hy0, hy1, _, _⟩ := hin
          omega
        show ((t0 :: rest).foldl (placeTile store) (fun _ _ => 0, [])).1 y x = _
        rw [foldl_placeTile_write store y x t block hs hbro hin
            (t0 :: rest) _ hmem hdisj,
          broadcastVal_exact hex hin]

/-- C5 counterexample: a manifest whose tile list is empty — exactly what
split produces for a raster smaller than the tile size — makes
`max(x_coords)` raise an uncaught `ValueError`, a fatal error, so the
claim's "for every manifest ... does not raise a fatal error" fails. -/
theorem reconstruct_empty_manifest_fatal :
    reconstruct_image_from_tiles (fun _ => none)
      { fits_file := "empty.fits", tile_size := 500, tiles := [] } =
      .error "ValueError" := rfl

theorem reconstruct_partial_failure_witness :
    ∃ canvas errs,
      reconstruct_image_from_tiles
          (fun f => if f = "a.png" then some [[7]] else none)
          ⟨"s.fits", 1, [⟨"a", "a.png", "ha", ⟨0, 0, 1, 1⟩⟩,
                         ⟨"b", "b.png", "hb", ⟨0, 1, 1, 2⟩⟩]⟩ =
        .ok (canvas, errs) ∧
      errs = (((⟨"s.fits", 1, [⟨"a", "a.png", "ha", ⟨0, 0, 1, 1⟩⟩,
            ⟨"b", "b.png", "hb", ⟨0, 1, 1, 2⟩⟩]⟩ : Manifest).tiles.filter
          fun t => !tileOk (fun f => if f = "a.png" then some [[7]] else none) t).map
        fun t => t.filename) := by
  obtain ⟨canvas, errs, h1, _, _, h4, _, _, _⟩ :=
    reconstruct_partial_failure
      (fun f => if f = "a.png" then some [[7]] else none)
      ⟨"s.fits", 1, [⟨"a", "a.png", "ha", ⟨0, 0, 1, 1⟩⟩,
                     ⟨"b", "b.png", "hb", ⟨0, 1, 1, 2⟩⟩]⟩
      (by simp)
      (by
        refine List.Pairwise.cons ?_ (List.pairwise_singleton _ _)
        intro b hb y x hc
        rw [List.mem_singleton] at hb
        subst hb
        simp [inRegion] at hc
        omega)
  exact ⟨canvas, errs, h1, h4⟩

/-- C8 (amended): every manifest produced by split serializes to an object
whose top-level field names are exactly `fits_file` (not `source_name`),
`tile_size`, `tiles`; each `tiles` entry is an object with exactly
`tile_id`, `filename`, `hash`, `position`, and `position` has exactly
`x_start`, `y_start`, `x_end`, `y_end`, with this nesting. -/
theorem manifest_field_names (hf : List (List Nat) → String) (name : String)
    (shape : List Nat) (pix : Nat → Nat → Nat) (T : Nat)
    (s : Manifest × List (Nat × Nat))
    (_h : fits_to_tiles hf name shape pix T = .ok s) :
    jsonKeys (manifestJson s.1) = ["fits_file", "tile_size", "tiles"] ∧
    manifestJson s.1 = Json.obj
      [("fits_file", Json.str s.1.fits_file),
       ("tile_size", Json.num s.1.tile_size),
       ("tiles", Json.arr (s.1.tiles.map tileJson))] ∧
    ∀ t : TileRecord,
      jsonKeys (tileJson t) = ["tile_id", "filename", "hash", "position"] ∧
      jsonKeys (positionJson t.position) =
        ["x_start", "y_start", "x_end", "y_end"] :=
  ⟨rfl, rfl, fun _ => ⟨rfl, rfl⟩⟩

theorem manifest_field_names_witness :
    jsonKeys (manifestJson
        ({ fits_file := "src.fits", tile_size := 2,
           tiles := splitTiles (fun _ => "h") "src.fits"
             (fun i j => i * 2 + j) 2 (2 / 2) (2 / 2) } : Manifest)) =
      ["fits_file", "tile_size", "tiles"] ∧
    jsonKeys (positionJson (⟨0, 0, 2, 2⟩ : Position)) =
      ["x_start", "y_start", "x_end", "y_end"] := by
  have h := manifest_field_names (fun _ => "h") "src.fits" [2, 2]
    (fun i j => i * 2 + j) 2
    ({ fits_file := "src.fits", tile_size := 2,
       tiles := splitTiles (fun _ => "h") "src.fits"
         (fun i j => i * 2 + j) 2 (2 / 2) (2 / 2) },
     splitWarnings (fun i j => i * 2 + j) 2 (2 / 2) (2 / 2)) rfl
  exact ⟨h.1, (h.2.2 ⟨"i", "f", "hh", ⟨0, 0, 2, 2⟩⟩).2⟩

/-- C8 counterexample: splitting a concrete 2×2 raster produces a manifest
whose persisted top-level keys are `fits_file`, `tile_size`, `tiles`:
there is no `source_name` field, so the claimed field list
`source_name, tile_size, tiles` does not match the code's manifests. -/
theorem manifest_field_names_counterexample :
    Except.map (fun s : Manifest × List (Nat × Nat) =>
        jsonKeys (manifestJson s.1))
      (fits_to_tiles (fun _ => "h") "src.fits" [2, 2]
        (fun i j => i * 2 + j) 2) =
      .ok ["fits_file", "tile_size", "tiles"] ∧
    "source_name" ∉ (["fits_file", "tile_size", "tiles"] : List String) :=
  ⟨rfl, by decide⟩

end Panoptes
